import Mathlib

/-!
Verification of the data-generation core of the general-ledger repository
(`backend/scripts/generateData.ts` together with the Prisma schema).

The TypeScript source is shallowly embedded as executable Lean definitions:

* Instants (JavaScript `Date` / Luxon `DateTime` values) are integers counting
  milliseconds since the Unix epoch (1970-01-01T00:00:00Z); calendar dates are
  integers counting days since that epoch.  `daysFromCivil` is the standard
  proleptic-Gregorian conversion used by every date library.
* Randomness (`faker`, `Math.random`, lodash `shuffle`, `cuid` ids) is made
  explicit: each embedded generator takes a record of oracle values, one field
  per random draw of the source function.  `faker.number.int {min, max}` is
  modelled as a surjection of the oracle draw onto `[min, max]`, and
  `faker.helpers.arrayElement` as indexing by the oracle draw modulo the
  length, so exactly the values the library contract allows are reachable.
* Record fields that no claim reads (free-text descriptions, timestamps,
  currencies, account type/subtype, audit columns) are omitted from the
  embedded records; the control flow that produces the retained fields is
  translated in full.
-/

namespace GenData

/-! ## Time model -/

/-- Milliseconds per UTC day. -/
def msPerDay : Int := 86400000

/-- Calendar day (days since 1970-01-01) containing an epoch-millisecond
instant; floor division, as JavaScript dates behave. -/
def dayOfMs (t : Int) : Int := t / msPerDay

/-- Epoch-millisecond instant of midnight UTC of a calendar day
(Luxon `startOf day`). -/
def startOfDayMs (d : Int) : Int := d * msPerDay

/-- Days since 1970-01-01 of the proleptic-Gregorian date `y-m-d`
(the standard civil-from-days conversion; `m` is 1-based). -/
def daysFromCivil (y m d : Int) : Int :=
  let y2 := if m ≤ 2 then y - 1 else y
  let era := y2 / 400
  let yoe := y2 - era * 400
  let mp := (m + 9) % 12
  let doy := (153 * mp + 2) / 5 + d - 1
  let doe := yoe * 365 + yoe / 4 - yoe / 100 + doy
  era * 146097 + doe - 719468

/-- ISO weekday of a day number, 1 = Monday .. 7 = Sunday (Luxon `weekday`);
day 0 (1970-01-01) is a Thursday. -/
def isoWeekday (d : Int) : Int := (d + 3) % 7 + 1

/-- Luxon `isWeekend`: Saturday (6) or Sunday (7). -/
def isWeekendDay (d : Int) : Bool := 6 ≤ isoWeekday d

/-- The while loop of `nearestPreviousBusinessDay`, stepping back one day while
the current day is a weekend day; `fuel` bounds the number of iterations. -/
def businessDayGo : Nat → Int → Int
  | 0, d => d
  | fuel + 1, d => if isWeekendDay d then businessDayGo fuel (d - 1) else d

/-- `nearestPreviousBusinessDay` from `generateData.ts`: truncate to the start
of the day, then walk back one day at a time until a non-weekend day is found.
At most two consecutive days are weekend days, so two loop iterations always
reach the loop exit; fuel 2 therefore computes the exact value of the
(unbounded) source loop. -/
def nearestPreviousBusinessDay (d : Int) : Int := businessDayGo 2 d

/-! ## Enumerations (Prisma schema) -/

/-- `BasePeriod` enum. -/
inductive BasePeriod
  | Month
  | Quarter
deriving Repr, DecidableEq, Inhabited

/-- `PeriodStatus` enum; the source value `open` is a Lean keyword and is
rendered `open_`. -/
inductive PeriodStatus
  | open_
  | closed
deriving Repr, DecidableEq, Inhabited

/-- `JournalEntryStatus` enum, in schema declaration order (the order
`Object.values` yields for `randomEnum`). -/
inductive JournalEntryStatus
  | Draft
  | Scheduled
  | Posted
deriving Repr, DecidableEq, Inhabited

/-- `AccountClassification` enum, in schema declaration order. -/
inductive AccountClassification
  | Asset
  | Equity
  | Expense
  | Liability
  | Income
  | Unknown
deriving Repr, DecidableEq, Inhabited

/-- The list `Object.values(JournalEntryStatus)`. -/
def journalEntryStatusValues : List JournalEntryStatus :=
  [.Draft, .Scheduled, .Posted]

/-- The list `Object.values(AccountClassification)`. -/
def accountClassificationValues : List AccountClassification :=
  [.Asset, .Equity, .Expense, .Liability, .Income, .Unknown]

/-! ## Oracle primitives for the random library calls -/

/-- `faker.number.int {min, max}`: the oracle draw mapped onto `[lo, hi]`
(every value of the range is reachable and, when `lo ≤ hi`, no value outside
it). -/
def natBetween (draw lo hi : Nat) : Nat := lo + draw % (hi + 1 - lo)

/-- Clamp an integer oracle draw into `[lo, hi]`; models `faker.number.int`
and `faker.date.between` ranges over integers. -/
def clampInt (x lo hi : Int) : Int := max lo (min x hi)

/-- `faker.helpers.arrayElement`: pick the element indexed by the oracle draw
modulo the length (`d` is returned on the empty list, on which the source
library throws; every call site below is proved to pass a non-empty list). -/
def pickElem (d : α) (l : List α) (idx : Nat) : α := l.getD (idx % l.length) d

/-- `randomEnum` from `generateData.ts`: a uniformly random element of the
enum value list. -/
def randomEnum (vals : List α) (d : α) (idx : Nat) : α := pickElem d vals idx

/-! ## Data model (fields read by the claims) -/

/-- `Company` row (fields the generators read). -/
structure Company where
  id : String
  basePeriod : BasePeriod
deriving Repr, DecidableEq, Inhabited

/-- `User` row (fields the generators read). -/
structure User where
  id : String
  companyId : String
deriving Repr, DecidableEq, Inhabited

/-- `Account` row as produced by `createRandomAccount` (fields the claims
read). -/
structure Account where
  id : String
  companyId : String
  active : Bool
  parentAccountId : Option String
  classification : AccountClassification
deriving Repr, DecidableEq, Inhabited

/-- `Period` row as produced by `createPeriodsForCompany`.  `startsOn`,
`endsOn` and `targetClose` are calendar days (the stored JavaScript dates are
midnight, 23:59:59.000 and 23:59:59.000 of these days respectively; see
`Period.startsOnMs` and `Period.endsOnMs`). -/
structure Period where
  id : String
  companyId : String
  displayName : String
  startsOnDay : Int
  endsOnDay : Int
  targetCloseDay : Int
  status : PeriodStatus
deriving Repr, DecidableEq, Inhabited

/-- The stored `startsOn` timestamp: `startDate.startOf("day")`. -/
def Period.startsOnMs (p : Period) : Int := startOfDayMs p.startsOnDay

/-- The stored `endsOn` timestamp: `endDate.endOf("day").startOf("second")`,
i.e. 23:59:59.000 of the last day. -/
def Period.endsOnMs (p : Period) : Int := startOfDayMs p.endsOnDay + 86399000

/-- `JournalEntry` row (fields the claims read). -/
structure JournalEntry where
  id : String
  displayId : Nat
  companyId : String
  periodId : String
  status : JournalEntryStatus
  deleted : Bool
  transactionDate : Int
deriving Repr, DecidableEq, Inhabited

/-- `JournalLine` row (fields the claims read). -/
structure JournalLine where
  id : String
  companyId : String
  journalEntryId : String
  accountId : Option String
  amount : Int
deriving Repr, DecidableEq, Inhabited

/-! ## Period Calendar Generator (`createPeriodsForCompany`) -/

/-- Luxon `toFormat "MMM"` month abbreviation. -/
def monthAbbrev (m : Int) : String :=
  if m = 1 then "Jan" else if m = 2 then "Feb" else if m = 3 then "Mar"
  else if m = 4 then "Apr" else if m = 5 then "May" else if m = 6 then "Jun"
  else if m = 7 then "Jul" else if m = 8 then "Aug" else if m = 9 then "Sep"
  else if m = 10 then "Oct" else if m = 11 then "Nov" else "Dec"

/-- First day of the month after `(y, m)` (months `1..12`). -/
def nextMonthStartDay (y m : Int) : Int :=
  if m = 12 then daysFromCivil (y + 1) 1 1 else daysFromCivil y (m + 1) 1

/-- Shared body of the monthly and quarterly branches of
`createPeriodsForCompany` (lines 800-826 and 843-869 of `generateData.ts`,
which are identical up to the display name and the month span): given the
first month and the last month of the window, build the period row.
`nowMs` is `DateTime.utc()` at generation time; `pid` is the `createId()`
value supplied by the id oracle. -/
def buildPeriod (pid : String) (c : Company) (nowMs : Int)
    (displayName : String) (y startMonth endMonth : Int) : Period :=
  let startDay := daysFromCivil y startMonth 1
  let nextStart := nextMonthStartDay y endMonth
  let endDay := nextStart - 1
  let endMs := startOfDayMs nextStart - 1
  let oneWeekBeforeEndMs := endMs - 7 * msPerDay
  let targetCloseDay := nearestPreviousBusinessDay (dayOfMs oneWeekBeforeEndMs)
  let status := if endMs < nowMs then PeriodStatus.closed else PeriodStatus.open_
  { id := pid
    companyId := c.id
    displayName := displayName
    startsOnDay := startDay
    endsOnDay := endDay
    targetCloseDay := targetCloseDay
    status := status }

/-- The list `[startYear, startYear + 1, ..., endYear]`. -/
def yearsRange (startYear endYear : Int) : List Int :=
  (List.range (endYear + 1 - startYear).toNat).map
    (fun (i : Nat) => startYear + (i : Int))

/-- One iteration of the outer year loop of `createPeriodsForCompany`:
12 monthly windows or 4 quarterly windows (quarter `q` spans months
`3q - 2 .. 3q`). -/
def periodsForYear (ids : Int → Int → String) (c : Company) (nowMs : Int)
    (year : Int) : List Period :=
  match c.basePeriod with
  | BasePeriod.Month =>
      ((List.range 12).map (fun (i : Nat) => (i : Int) + 1)).map (fun month =>
        buildPeriod (ids year month) c nowMs
          (monthAbbrev month ++ " " ++ toString year) year month month)
  | BasePeriod.Quarter =>
      ((List.range 4).map (fun (i : Nat) => (i : Int) + 1)).map (fun quarter =>
        buildPeriod (ids year quarter) c nowMs
          ("Q" ++ toString quarter ++ " " ++ toString year)
          year ((quarter - 1) * 3 + 1) ((quarter - 1) * 3 + 3))

/-- `createPeriodsForCompany company startYear endYear`; `ids y idx` models the
`createId()` call of the period with index `idx` (month or quarter number) of
year `y`. -/
def createPeriodsForCompany (ids : Int → Int → String) (c : Company)
    (nowMs : Int) (startYear endYear : Int) : List Period :=
  (yearsRange startYear endYear).flatMap (periodsForYear ids c nowMs)

/-! ## Account Hierarchy generation (`createRandomAccount`,
`createAccountsForCompany`) -/

/-- The random draws one `createRandomAccount` call makes (fields that feed
the retained `Account` columns: the `createId()` value and the
`faker.datatype.boolean {probability: 0.9}` active draw). -/
structure AccountRand where
  id : String
  activeDraw : Bool
deriving Repr, DecidableEq

/-- `createRandomAccount` (lines 565-656 of `generateData.ts`), restricted to
the retained columns.  The `active` flag: if a parent is given and it is not
active, the account is inactive; otherwise the 90 percent coin decides. -/
def createRandomAccount (r : AccountRand) (company : Company)
    (classification : AccountClassification) (parentAccount : Option Account) :
    Account :=
  let active :=
    match parentAccount with
    | some p => if !p.active then false else r.activeDraw
    | none => r.activeDraw
  { id := r.id
    companyId := company.id
    active := active
    parentAccountId := parentAccount.map (fun p => p.id)
    classification := classification }

/-- The oracle for one `createAccountsForCompany` call: the account-count
draw, and per loop index `i` the `createRandomAccount` draws, the
classification pick of `randomEnum`, the 30 percent child coin and the
`arrayElement` parent pick. -/
structure AccountsOracle where
  numDraw : Nat
  accRand : Nat → AccountRand
  clsIdx : Nat → Nat
  childDraw : Nat → Bool
  parentIdx : Nat → Nat

/-- Loop state of `createAccountsForCompany`: all accounts so far and the
potential parents (child accounts are not added to the parent list). -/
structure AccountsState where
  accounts : List Account
  parentAccounts : List Account
deriving Repr

/-- One iteration of the second loop of `createAccountsForCompany` (loop
index `i`): maybe create a child of a same-classification parent, else a
regular root account. -/
def accountsStep (o : AccountsOracle) (company : Company)
    (st : AccountsState) (i : Nat) : AccountsState :=
  let classification :=
    randomEnum accountClassificationValues AccountClassification.Unknown
      (o.clsIdx i)
  let createChildAccount := decide (st.parentAccounts ≠ []) && o.childDraw i
  let regular : AccountsState :=
    let a := createRandomAccount (o.accRand i) company classification none
    { accounts := st.accounts ++ [a]
      parentAccounts := st.parentAccounts ++ [a] }
  if createChildAccount then
    let potentialParents :=
      st.parentAccounts.filter
        (fun parent => decide (parent.classification = classification))
    if potentialParents ≠ [] then
      let parentAccount :=
        pickElem (Account.mk "" "" false none AccountClassification.Unknown)
          potentialParents (o.parentIdx i)
      let childAccount :=
        createRandomAccount (o.accRand i) company classification
          (some parentAccount)
      { accounts := st.accounts ++ [childAccount]
        parentAccounts := st.parentAccounts }
    else regular
  else regular

/-- `createAccountsForCompany` (lines 661-719): first one account per
classification (loop indices `0..5`), then random accounts with the optional
child branch for indices `6..numAccounts-1`. -/
def createAccountsForCompany (o : AccountsOracle) (company : Company)
    (minAccounts maxAccounts : Nat) : List Account :=
  let numAccounts := natBetween o.numDraw minAccounts maxAccounts
  let initial : List Account :=
    accountClassificationValues.enum.map (fun ci =>
      createRandomAccount (o.accRand ci.1) company ci.2 none)
  let st0 : AccountsState := { accounts := initial, parentAccounts := initial }
  let final :=
    ((List.range (numAccounts - accountClassificationValues.length)).map
        (fun k => k + accountClassificationValues.length)).foldl
      (accountsStep o company) st0
  final.accounts

/-! ## Journal line generation (`createRandomJournalLines`) -/

/-- The exit value of the `while (amount === 0)` loop of
`createRandomJournalLines`: the amount starts at zero and each iteration
replaces a still-zero amount by a fresh `faker.number.int {min: -500000000,
max: 500000000}` draw, so the loop exits with the first nonzero clamped draw.
A run in which every draw is zero corresponds to a source execution that
never terminates; the fold then returns 0, and theorems about terminating
runs hypothesise a nonzero result. -/
def loopAmount (draws : List Int) : Int :=
  draws.foldl
    (fun amount d => if amount = 0 then clampInt d (-500000000) 500000000
     else amount) 0

/-- The random draws of one `createRandomJournalLines` call.  `shuffleCls`
models the lodash `shuffle` of the classification keys (theorems hypothesise
that it permutes its input); `amountDraws i` is the draw sequence of the
while loop of non-balancing line `i`. -/
structure LinesRand where
  draftEmptyDraw : Bool
  zeroSingleDraw : Bool
  zeroAccountIdx : Nat
  zeroLineId : String
  numLinesDraw : Nat
  shuffleCls : List AccountClassification → List AccountClassification
  amountDraws : Nat → List Int
  lineAccountIdx : Nat → Nat
  lineId : Nat → String

/-- A placeholder account; `faker.helpers.arrayElement` throws on an empty
array, and every use below is proved to index a non-empty list. -/
def placeholderAccount : Account :=
  Account.mk "" "" false none AccountClassification.Unknown

/-- First-occurrence deduplication with an accumulator of already-seen keys;
structural recursion so that concrete runs evaluate. -/
def dedupFirstAux {α : Type} [DecidableEq α] (seen : List α) :
    List α → List α
  | [] => []
  | c :: cs =>
      if c ∈ seen then dedupFirstAux seen cs
      else c :: dedupFirstAux (c :: seen) cs

/-- First-occurrence deduplication, the key order of a JavaScript
`Object.keys(_.groupBy(...))`. -/
def dedupFirst {α : Type} [DecidableEq α] (l : List α) : List α :=
  dedupFirstAux [] l

/-- The distinct classification keys of `_.groupBy(availableAccounts,
"classification")` in `Object.keys` order (first occurrence first). -/
def classificationKeys (accounts : List Account) : List AccountClassification :=
  dedupFirst (accounts.map (fun a => a.classification))

/-- Lines 1403-1418 of `createRandomJournalLines`: the accounts of the
company of the entry, restricted to active accounts when the transaction
date is on or after `now`. -/
def availableAccountsFor (journalEntry : JournalEntry)
    (accounts : List Account) (nowMs : Int) : List Account :=
  let requireActiveAccounts := nowMs ≤ journalEntry.transactionDate
  let availableAccounts0 :=
    accounts.filter (fun a => decide (a.companyId = journalEntry.companyId))
  if requireActiveAccounts then availableAccounts0.filter (fun a => a.active)
  else availableAccounts0

/-- Lines 1452-1459: the number of journal lines, between 2 and
`min MAX_JOURNAL_LINES_PER_ENTRY (classifications.length > 1 ?
classifications.length : 5)`. -/
def numLinesFor (r : LinesRand)
    (classifications : List AccountClassification) : Nat :=
  natBetween r.numLinesDraw 2
    (min 5 (if 1 < classifications.length then classifications.length else 5))

/-- Lines 1461-1473: the classification of each line: a shuffled prefix when
several classifications exist, else the single classification repeated. -/
def selectedClassificationsFor (r : LinesRand)
    (classifications : List AccountClassification) (numLines : Nat) :
    List AccountClassification :=
  if 1 < classifications.length then
    (r.shuffleCls classifications).take numLines
  else
    List.replicate numLines
      (classifications.getD 0 AccountClassification.Unknown)

/-- Lines 1479-1517: build the journal line with index `i` and the given
amount: pick an account from the group of the selected classification of
line `i`. -/
def journalLineFor (r : LinesRand) (journalEntry : JournalEntry)
    (availableAccounts : List Account)
    (selectedClassifications : List AccountClassification) (i : Nat)
    (amount : Int) : JournalLine :=
  let classification :=
    selectedClassifications.getD i AccountClassification.Unknown
  let accountsForClassification :=
    availableAccounts.filter
      (fun a => decide (a.classification = classification))
  let account :=
    pickElem placeholderAccount accountsForClassification (r.lineAccountIdx i)
  { id := r.lineId i
    companyId := journalEntry.companyId
    journalEntryId := journalEntry.id
    accountId := some account.id
    amount := amount }

/-- `createRandomJournalLines` (lines 1394-1525 of `generateData.ts`).
`nowMs` is the `DateTime.utc()` call of the function body. -/
def createRandomJournalLines (r : LinesRand) (journalEntry : JournalEntry)
    (accounts : List Account) (nowMs : Int) : List JournalLine :=
  if journalEntry.status = JournalEntryStatus.Draft && r.draftEmptyDraw then []
  else
    let availableAccounts := availableAccountsFor journalEntry accounts nowMs
    if availableAccounts.isEmpty then []
    else
      let classifications := classificationKeys availableAccounts
      if classifications.isEmpty then []
      else if r.zeroSingleDraw then
        let account := pickElem placeholderAccount availableAccounts r.zeroAccountIdx
        [{ id := r.zeroLineId
           companyId := journalEntry.companyId
           journalEntryId := journalEntry.id
           accountId := some account.id
           amount := 0 }]
      else
        let numLines := numLinesFor r classifications
        let selectedClassifications :=
          selectedClassificationsFor r classifications numLines
        let journalLines :=
          (List.range (numLines - 1)).map (fun i =>
            journalLineFor r journalEntry availableAccounts
              selectedClassifications i (loopAmount (r.amountDraws i)))
        let totalAmount :=
          ((List.range (numLines - 1)).map
            (fun i => loopAmount (r.amountDraws i))).sum
        let balancingLine :=
          journalLineFor r journalEntry availableAccounts
            selectedClassifications (numLines - 1) (-totalAmount)
        journalLines ++ [balancingLine]

/-! ## Journal entry generation (`createRandomJournalEntry`,
`createJournalEntries`) -/

/-- The random draws of one `createRandomJournalEntry` call (fields feeding
the retained `JournalEntry` columns). -/
structure EntryRand where
  id : String
  createdByIdx : Nat
  transactionDraw : Int
  deletedDraw : Bool
  statusIdx : Nat
deriving Repr, DecidableEq

/-- A placeholder user; `faker.helpers.arrayElement` throws when the company
has no users, a configuration the generator never produces. -/
def placeholderUser : User := User.mk "" ""

/-- `createRandomJournalEntry` (lines 1530-1617 of `generateData.ts`),
restricted to the retained columns.  The transaction date is a
`faker.date.between` value inside `[startsOn, endsOn]` of the period; the
status is forced to `Scheduled` when the period starts strictly after `now`,
and is a uniformly random `JournalEntryStatus` otherwise. -/
def createRandomJournalEntry (r : EntryRand) (company : Company)
    (period : Period) (users : List User) (displayId : Nat) (nowMs : Int) :
    JournalEntry :=
  let companyUsers := users.filter (fun u => decide (u.companyId = company.id))
  let _createdBy := (pickElem placeholderUser companyUsers r.createdByIdx).id
  let minDateMs := period.startsOnMs
  let maxDateMs := period.endsOnMs
  let transactionDate := clampInt r.transactionDraw minDateMs maxDateMs
  let isDeleted := r.deletedDraw
  let status :=
    if nowMs < minDateMs then JournalEntryStatus.Scheduled
    else
      randomEnum journalEntryStatusValues JournalEntryStatus.Draft r.statusIdx
  { id := r.id
    displayId := displayId
    companyId := company.id
    periodId := period.id
    status := status
    deleted := isDeleted
    transactionDate := transactionDate }

/-- Insert `x` after every already-placed element `y` with `le y x`
(stable insertion). -/
def insertByLe (le : α → α → Bool) (x : α) : List α → List α
  | [] => [x]
  | y :: ys => if le y x then y :: insertByLe le x ys else x :: y :: ys

/-- Stable sort, modelling the ECMAScript `Array.prototype.sort` (stable
since ES2019) with the comparator
`(a, b) => a.startsOn.getTime() - b.startsOn.getTime()`. -/
def stableSortByLe (le : α → α → Bool) (l : List α) : List α :=
  l.foldl (fun acc x => insertByLe le x acc) []

/-- The oracle for one `createJournalEntries` call: the shared clock, the
per-period entry-count draw (keyed by period id) and, keyed by the display id
of the entry being created, the entry and line draws. -/
structure EntriesOracle where
  nowMs : Int
  numEntriesDraw : String → Nat
  entryRand : Nat → EntryRand
  linesRand : Nat → LinesRand

/-- Accumulator of `createJournalEntries`: the entry and line arrays and the
`globalDisplayId` counter. -/
structure EntriesState where
  journalEntries : List JournalEntry
  journalLines : List JournalLine
  globalDisplayId : Nat
deriving Repr

/-- The body of the per-period loop of `createJournalEntries`: look up the
company of the period (the source uses a non-null assertion; a period whose
company is absent would crash the script, so that branch generates nothing),
then create `numEntries` entries, each with its journal lines, incrementing
`globalDisplayId` per entry. -/
def entriesForPeriod (o : EntriesOracle) (companies : List Company)
    (users : List User) (accounts : List Account)
    (minEntries maxEntries : Nat) (st : EntriesState) (period : Period) :
    EntriesState :=
  match companies.find? (fun c => decide (c.id = period.companyId)) with
  | none => st
  | some company =>
    let numEntries := natBetween (o.numEntriesDraw period.id) minEntries maxEntries
    (List.range numEntries).foldl
      (fun st2 _ =>
        let journalEntry :=
          createRandomJournalEntry (o.entryRand st2.globalDisplayId) company
            period users st2.globalDisplayId o.nowMs
        let journalLines :=
          createRandomJournalLines (o.linesRand st2.globalDisplayId)
            journalEntry accounts o.nowMs
        { journalEntries := st2.journalEntries ++ [journalEntry]
          journalLines := st2.journalLines ++ journalLines
          globalDisplayId := st2.globalDisplayId + 1 })
      st

/-- `createJournalEntries` (lines 1687-1734 of `generateData.ts`): sort all
periods (of all companies) by `startsOn`, start the display-id counter at 1,
and generate the entries of each period in chronological order. -/
def createJournalEntries (o : EntriesOracle) (companies : List Company)
    (periods : List Period) (users : List User) (accounts : List Account)
    (minEntries maxEntries : Nat) : EntriesState :=
  let allPeriodsSorted :=
    stableSortByLe (fun a b => decide (a.startsOnDay ≤ b.startsOnDay)) periods
  allPeriodsSorted.foldl
    (entriesForPeriod o companies users accounts minEntries maxEntries)
    { journalEntries := [], journalLines := [], globalDisplayId := 1 }

/-! ## Proof-side invariants -/

/-- Invariant of the `createAccountsForCompany` loop: every stored parent
reference points at an earlier-stored account, inactive parents force
inactive children, and the potential-parent list is a subset of the account
list. -/
def accountsInvariant (st : AccountsState) : Prop :=
  (∀ a ∈ st.accounts, ∀ pid, a.parentAccountId = some pid →
    ∃ q ∈ st.accounts, q.id = pid ∧ (q.active = false → a.active = false)) ∧
  (∀ q ∈ st.parentAccounts, q ∈ st.accounts)

/-- Invariant of the `createJournalEntries` loop: the display ids handed out
so far are exactly `1, 2, ..., n` in creation order and the counter stands at
`n + 1`. -/
def entriesInvariant (st : EntriesState) : Prop :=
  st.journalEntries.map (fun e => e.displayId) =
    List.range' 1 st.journalEntries.length ∧
  st.globalDisplayId = st.journalEntries.length + 1

/-! ## Concrete fixtures used by the witnesses and the counterexample -/

/-- A monthly-cadence company fixture. -/
def companyAFix : Company := { id := "companyA", basePeriod := BasePeriod.Month }

/-- A second company fixture. -/
def companyBFix : Company := { id := "companyB", basePeriod := BasePeriod.Month }

/-- A period of `companyAFix` (days 0-30). -/
def periodAFix : Period :=
  { id := "pA", companyId := "companyA", displayName := "Jan 1970"
    startsOnDay := 0, endsOnDay := 30, targetCloseDay := 22
    status := PeriodStatus.open_ }

/-- A later period of `companyBFix` (days 31-58). -/
def periodBFix : Period :=
  { id := "pB", companyId := "companyB", displayName := "Feb 1970"
    startsOnDay := 31, endsOnDay := 58, targetCloseDay := 50
    status := PeriodStatus.open_ }

/-- One user per fixture company. -/
def userAFix : User := { id := "userA", companyId := "companyA" }

/-- One user per fixture company. -/
def userBFix : User := { id := "userB", companyId := "companyB" }

/-- Two active accounts of `companyAFix` with distinct classifications. -/
def accountAssetFix : Account :=
  { id := "acct1", companyId := "companyA", active := true
    parentAccountId := none, classification := AccountClassification.Asset }

/-- Two active accounts of `companyAFix` with distinct classifications. -/
def accountIncomeFix : Account :=
  { id := "acct2", companyId := "companyA", active := true
    parentAccountId := none, classification := AccountClassification.Income }

/-- A posted journal entry fixture of `companyAFix`. -/
def entryPostedFix : JournalEntry :=
  { id := "jeW", displayId := 1, companyId := "companyA", periodId := "pA"
    status := JournalEntryStatus.Posted, deleted := false, transactionDate := 0 }

/-- Concrete line draws: no empty-draft coin, no zero-single coin, two lines,
identity shuffle, a single nonzero amount draw per loop. -/
def linesRandFix : LinesRand :=
  { draftEmptyDraw := false, zeroSingleDraw := false, zeroAccountIdx := 0
    zeroLineId := "zl", numLinesDraw := 0, shuffleCls := fun l => l
    amountDraws := fun _ => [7], lineAccountIdx := fun _ => 0
    lineId := fun i => "ln" ++ toString i }

/-- Concrete entry draws. -/
def entryRandFix : EntryRand :=
  { id := "jeX", createdByIdx := 0, transactionDraw := 0, deletedDraw := false
    statusIdx := 2 }

/-- Concrete oracle for a two-company `createJournalEntries` run: one entry
per period, empty account list. -/
def entriesOracleFix : EntriesOracle :=
  { nowMs := 0
    numEntriesDraw := fun _ => 0
    entryRand := fun k =>
      { id := "je" ++ toString k, createdByIdx := 0, transactionDraw := 0
        deletedDraw := false, statusIdx := 0 }
    linesRand := fun _ => linesRandFix }

/-- Concrete account oracle: seven accounts, the initial Asset account drawn
inactive, the seventh account a child of it. -/
def accountsOracleFix : AccountsOracle :=
  { numDraw := 0
    accRand := fun i =>
      { id := "acct" ++ toString i, activeDraw := decide (i ≠ 0) }
    clsIdx := fun _ => 0
    childDraw := fun _ => true
    parentIdx := fun _ => 0 }

/-! ## Helper lemmas -/

theorem pickElem_mem (d : α) (l : List α) (idx : Nat) (h : l ≠ []) :
    pickElem d l idx ∈ l := by
  have hlen : 0 < l.length := List.length_pos.mpr h
  have hlt : idx % l.length < l.length := Nat.mod_lt _ hlen
  have hg := List.getD_eq_getElem l d hlt
  simp only [pickElem, hg]
  exact List.getElem_mem hlt

theorem natBetween_lower (draw lo hi : Nat) : lo ≤ natBetween draw lo hi := by
  simp [natBetween]

theorem natBetween_upper (draw lo hi : Nat) (h : lo ≤ hi) :
    natBetween draw lo hi ≤ hi := by
  have hpos : 0 < hi + 1 - lo := by omega
  have := Nat.mod_lt draw hpos
  simp only [natBetween]
  omega

theorem clampInt_lower (x lo hi : Int) : lo ≤ clampInt x lo hi := by
  simp only [clampInt]
  omega

theorem clampInt_upper (x lo hi : Int) (h : lo ≤ hi) : clampInt x lo hi ≤ hi := by
  simp only [clampInt]
  omega

theorem loopAmount_range (draws : List Int) :
    -500000000 ≤ loopAmount draws ∧ loopAmount draws ≤ 500000000 := by
  suffices h : ∀ a : Int, -500000000 ≤ a → a ≤ 500000000 →
      -500000000 ≤ draws.foldl
        (fun amount d => if amount = 0 then clampInt d (-500000000) 500000000
         else amount) a ∧
      draws.foldl
        (fun amount d => if amount = 0 then clampInt d (-500000000) 500000000
         else amount) a ≤ 500000000 by
    exact h 0 (by norm_num) (by norm_num)
  induction draws with
  | nil => intro a h1 h2; simpa using ⟨h1, h2⟩
  | cons d ds ih =>
    intro a h1 h2
    simp only [List.foldl_cons]
    by_cases ha : a = 0
    · subst ha
      rw [if_pos rfl]
      exact ih _ (clampInt_lower d _ _)
        (clampInt_upper d (-500000000) 500000000 (by norm_num))
    · rw [if_neg ha]
      exact ih a h1 h2

theorem sum_bounded (B : Int) (l : List Int)
    (h : ∀ x ∈ l, -B ≤ x ∧ x ≤ B) :
    -((l.length : Int) * B) ≤ l.sum ∧ l.sum ≤ (l.length : Int) * B := by
  induction l with
  | nil => simp
  | cons x xs ih =>
    have hx := h x (List.mem_cons_self x xs)
    have hxs := ih (fun y hy => h y (List.mem_cons_of_mem x hy))
    simp only [List.sum_cons, List.length_cons]
    push_cast
    constructor <;> nlinarith [hx.1, hx.2, hxs.1, hxs.2]

theorem isWeekendDay_eq_true_iff (d : Int) :
    isWeekendDay d = true ↔ d % 7 = 2 ∨ d % 7 = 3 := by
  simp only [isWeekendDay, isoWeekday, decide_eq_true_eq]
  omega

theorem isWeekendDay_eq_false_iff (d : Int) :
    isWeekendDay d = false ↔ ¬(d % 7 = 2 ∨ d % 7 = 3) := by
  rw [← isWeekendDay_eq_true_iff]
  simp

theorem nearestPreviousBusinessDay_spec (d : Int) :
    isWeekendDay (nearestPreviousBusinessDay d) = false ∧
    d - 2 ≤ nearestPreviousBusinessDay d ∧
    nearestPreviousBusinessDay d ≤ d ∧
    ∀ e : Int, nearestPreviousBusinessDay d < e → e ≤ d →
      isWeekendDay e = true := by
  by_cases h1 : isWeekendDay d = true
  · by_cases h2 : isWeekendDay (d - 1) = true
    · have hw1 := (isWeekendDay_eq_true_iff d).mp h1
      have hw2 := (isWeekendDay_eq_true_iff (d - 1)).mp h2
      have hval : nearestPreviousBusinessDay d = d - 2 := by
        simp only [nearestPreviousBusinessDay, businessDayGo, h1, if_true, h2]
        omega
      rw [hval]
      refine ⟨?_, by omega, by omega, ?_⟩
      · rw [isWeekendDay_eq_false_iff]; omega
      · intro e he1 he2
        have : e = d ∨ e = d - 1 := by omega
        rcases this with rfl | rfl
        · exact h1
        · exact h2
    · have h2f : isWeekendDay (d - 1) = false := by simpa using h2
      have hval : nearestPreviousBusinessDay d = d - 1 := by
        simp only [nearestPreviousBusinessDay, businessDayGo, h1, if_true, h2f,
          Bool.false_eq_true, if_false]
      rw [hval]
      refine ⟨h2f, by omega, by omega, ?_⟩
      intro e he1 he2
      have : e = d := by omega
      subst this
      exact h1
  · have h1f : isWeekendDay d = false := by simpa using h1
    have hval : nearestPreviousBusinessDay d = d := by
      simp only [nearestPreviousBusinessDay, businessDayGo, h1f,
        Bool.false_eq_true, if_false]
    rw [hval]
    refine ⟨h1f, by omega, by omega, ?_⟩
    intro e he1 he2
    omega

theorem daysFromCivil_month_step (y m : Int) (h1 : 1 ≤ m) (h2 : m ≤ 12) :
    daysFromCivil y m 1 < nextMonthStartDay y m := by
  simp only [nextMonthStartDay]
  split_ifs with h
  · subst h
    simp only [daysFromCivil]
    split_ifs <;> omega
  · have h3 : m ≤ 11 := by omega
    simp only [daysFromCivil]
    interval_cases m <;> split_ifs <;> omega

theorem daysFromCivil_quarter_span (y q : Int) (h1 : 1 ≤ q) (h2 : q ≤ 4) :
    daysFromCivil y ((q - 1) * 3 + 1) 1 < nextMonthStartDay y ((q - 1) * 3 + 3) := by
  interval_cases q <;> simp only [daysFromCivil, nextMonthStartDay] <;> omega

theorem dayOfMs_targetAnchor (n : Int) :
    dayOfMs (startOfDayMs n - 1 - 7 * msPerDay) = n - 8 := by
  simp only [dayOfMs, startOfDayMs, msPerDay]
  omega

/-! ## Facts about the generated periods -/

theorem buildPeriod_startsOnDay (pid : String) (c : Company) (nowMs : Int)
    (dn : String) (y sm em : Int) :
    (buildPeriod pid c nowMs dn y sm em).startsOnDay = daysFromCivil y sm 1 := rfl

theorem buildPeriod_endsOnDay (pid : String) (c : Company) (nowMs : Int)
    (dn : String) (y sm em : Int) :
    (buildPeriod pid c nowMs dn y sm em).endsOnDay =
      nextMonthStartDay y em - 1 := rfl

theorem buildPeriod_companyId (pid : String) (c : Company) (nowMs : Int)
    (dn : String) (y sm em : Int) :
    (buildPeriod pid c nowMs dn y sm em).companyId = c.id := rfl

theorem buildPeriod_targetCloseDay (pid : String) (c : Company) (nowMs : Int)
    (dn : String) (y sm em : Int) :
    (buildPeriod pid c nowMs dn y sm em).targetCloseDay =
      nearestPreviousBusinessDay (nextMonthStartDay y em - 8) := by
  show nearestPreviousBusinessDay
      (dayOfMs (startOfDayMs (nextMonthStartDay y em) - 1 - 7 * msPerDay)) = _
  rw [dayOfMs_targetAnchor]

theorem buildPeriod_status_iff (pid : String) (c : Company) (nowMs : Int)
    (dn : String) (y sm em : Int) :
    (buildPeriod pid c nowMs dn y sm em).status = PeriodStatus.closed ↔
      (buildPeriod pid c nowMs dn y sm em).endsOnDay < dayOfMs nowMs := by
  have hiff : (startOfDayMs (nextMonthStartDay y em) - 1 < nowMs) ↔
      (nextMonthStartDay y em - 1 < dayOfMs nowMs) := by
    simp only [startOfDayMs, dayOfMs, msPerDay]
    omega
  show (if startOfDayMs (nextMonthStartDay y em) - 1 < nowMs
        then PeriodStatus.closed else PeriodStatus.open_) = PeriodStatus.closed ↔
      nextMonthStartDay y em - 1 < dayOfMs nowMs
  rw [← hiff]
  split_ifs with h
  · simp [h]
  · simp [h]

theorem mem_periodsForYear {p : Period} {ids : Int → Int → String} {c : Company}
    {nowMs y : Int} (hp : p ∈ periodsForYear ids c nowMs y) :
    ∃ pid dn sm em, p = buildPeriod pid c nowMs dn y sm em ∧
      daysFromCivil y sm 1 < nextMonthStartDay y em := by
  cases hc : c.basePeriod with
  | Month =>
    simp only [periodsForYear, hc, List.mem_map, List.mem_range] at hp
    obtain ⟨m, ⟨i, hi, rfl⟩, rfl⟩ := hp
    refine ⟨_, _, _, _, rfl, ?_⟩
    exact daysFromCivil_month_step y ((i : Int) + 1) (by omega) (by omega)
  | Quarter =>
    simp only [periodsForYear, hc, List.mem_map, List.mem_range] at hp
    obtain ⟨q, ⟨i, hi, rfl⟩, rfl⟩ := hp
    refine ⟨_, _, _, _, rfl, ?_⟩
    exact daysFromCivil_quarter_span y ((i : Int) + 1) (by omega) (by omega)

theorem periodsForYear_length_month {c : Company}
    (hc : c.basePeriod = BasePeriod.Month) (ids : Int → Int → String)
    (nowMs y : Int) : (periodsForYear ids c nowMs y).length = 12 := by
  simp only [periodsForYear, hc, List.length_map, List.length_range]

theorem periodsForYear_length_quarter {c : Company}
    (hc : c.basePeriod = BasePeriod.Quarter) (ids : Int → Int → String)
    (nowMs y : Int) : (periodsForYear ids c nowMs y).length = 4 := by
  simp only [periodsForYear, hc, List.length_map, List.length_range]

theorem periodsForYear_ne_nil (ids : Int → Int → String) (c : Company)
    (nowMs y : Int) : periodsForYear ids c nowMs y ≠ [] := by
  cases hc : c.basePeriod with
  | Month =>
    have := periodsForYear_length_month hc ids nowMs y
    intro hcon
    rw [hcon] at this
    simp at this
  | Quarter =>
    have := periodsForYear_length_quarter hc ids nowMs y
    intro hcon
    rw [hcon] at this
    simp at this

theorem monthList_eq :
    (List.range 12).map (fun (i : Nat) => (i : Int) + 1) =
      [1, 2, 3, 4, 5, 6, 7, 8, 9, 10, 11, 12] := by
  decide

theorem quarterList_eq :
    (List.range 4).map (fun (i : Nat) => (i : Int) + 1) = [1, 2, 3, 4] := by
  decide

theorem periodsForYear_chain' (ids : Int → Int → String) (c : Company)
    (nowMs y : Int) :
    (periodsForYear ids c nowMs y).Chain'
      (fun p q => p.endsOnDay + 1 = q.startsOnDay) := by
  cases hc : c.basePeriod with
  | Month =>
    simp only [periodsForYear, hc]
    rw [monthList_eq]
    simp only [List.map_cons, List.map_nil, List.chain'_cons,
      List.chain'_singleton, and_true]
    refine ⟨?_, ?_, ?_, ?_, ?_, ?_, ?_, ?_, ?_, ?_, ?_⟩ <;>
      simp only [buildPeriod_endsOnDay, buildPeriod_startsOnDay] <;>
      norm_num [nextMonthStartDay]
  | Quarter =>
    simp only [periodsForYear, hc]
    rw [quarterList_eq]
    simp only [List.map_cons, List.map_nil, List.chain'_cons,
      List.chain'_singleton, and_true]
    refine ⟨?_, ?_, ?_⟩ <;>
      simp only [buildPeriod_endsOnDay, buildPeriod_startsOnDay] <;>
      norm_num [nextMonthStartDay]

theorem periodsForYear_link (ids : Int → Int → String) (c : Company)
    (nowMs y : Int) :
    ∀ x ∈ (periodsForYear ids c nowMs y).getLast?,
    ∀ z ∈ (periodsForYear ids c nowMs (y + 1)).head?,
      x.endsOnDay + 1 = z.startsOnDay := by
  cases hc : c.basePeriod with
  | Month =>
    intro x hx z hz
    simp only [periodsForYear, hc] at hx hz
    rw [monthList_eq] at hx hz
    simp only [List.map_cons, List.map_nil, List.getLast?_cons_cons,
      List.getLast?_singleton, List.head?_cons, Option.mem_def,
      Option.some.injEq] at hx hz
    subst hx
    subst hz
    simp only [buildPeriod_endsOnDay, buildPeriod_startsOnDay]
    norm_num [nextMonthStartDay]
  | Quarter =>
    intro x hx z hz
    simp only [periodsForYear, hc] at hx hz
    rw [quarterList_eq] at hx hz
    simp only [List.map_cons, List.map_nil, List.getLast?_cons_cons,
      List.getLast?_singleton, List.head?_cons, Option.mem_def,
      Option.some.injEq] at hx hz
    subst hx
    subst hz
    simp only [buildPeriod_endsOnDay, buildPeriod_startsOnDay]
    norm_num [nextMonthStartDay]

theorem yearsRange_cons (sy ey : Int) (h : sy ≤ ey) :
    yearsRange sy ey = sy :: yearsRange (sy + 1) ey := by
  simp only [yearsRange]
  have hN : (ey + 1 - sy).toNat = (ey + 1 - (sy + 1)).toNat + 1 := by omega
  rw [hN, List.range_succ_eq_map]
  simp only [List.map_cons, List.map_map, Nat.cast_zero, add_zero]
  congr 1
  apply List.map_congr_left
  intro i _
  simp only [Function.comp_apply]
  push_cast
  ring

theorem yearsRange_eq_nil (sy ey : Int) (h : ¬ sy ≤ ey) :
    yearsRange sy ey = [] := by
  have hN : (ey + 1 - sy).toNat = 0 := by omega
  simp [yearsRange, hN]

theorem flatMap_yearsRange_chain' (F : Int → List Period)
    (link : Period → Period → Prop)
    (hchain : ∀ y, (F y).Chain' link)
    (hne : ∀ y, F y ≠ [])
    (hlink : ∀ y, ∀ x ∈ (F y).getLast?, ∀ z ∈ (F (y + 1)).head?, link x z)
    (sy ey : Int) :
    ((yearsRange sy ey).flatMap F).Chain' link := by
  generalize hN : (ey + 1 - sy).toNat = N
  induction N generalizing sy with
  | zero =>
    have hnil : yearsRange sy ey = [] := by
      simp [yearsRange, hN]
    simp [hnil]
  | succ n ih =>
    have hle : sy ≤ ey := by omega
    rw [yearsRange_cons sy ey hle, List.flatMap_cons, List.chain'_append]
    refine ⟨hchain sy, ih (sy + 1) (by omega), ?_⟩
    intro x hx z hz
    by_cases h2 : sy + 1 ≤ ey
    · rw [yearsRange_cons _ _ h2, List.flatMap_cons,
        List.head?_append_of_ne_nil _ (hne (sy + 1))] at hz
      exact hlink sy x hx z hz
    · rw [yearsRange_eq_nil _ _ h2] at hz
      simp at hz

theorem pairwise_of_chain'_valid (l : List Period)
    (hc : l.Chain' (fun p q => p.endsOnDay + 1 = q.startsOnDay))
    (hv : ∀ p ∈ l, p.startsOnDay ≤ p.endsOnDay) :
    l.Pairwise (fun p q => p.endsOnDay < q.startsOnDay) := by
  induction l with
  | nil => exact List.Pairwise.nil
  | cons a t ih =>
    rw [List.chain'_cons'] at hc
    obtain ⟨hhead, htail⟩ := hc
    have hvt : ∀ p ∈ t, p.startsOnDay ≤ p.endsOnDay := fun p hp =>
      hv p (List.mem_cons_of_mem _ hp)
    have hpt := ih htail hvt
    refine List.Pairwise.cons ?_ hpt
    intro b hb
    cases t with
    | nil => cases hb
    | cons b0 t' =>
      have hab0 : a.endsOnDay + 1 = b0.startsOnDay := hhead b0 rfl
      rcases List.mem_cons.mp hb with rfl | hb'
      · omega
      · have h1 : b0.endsOnDay < b.startsOnDay :=
          (List.pairwise_cons.mp hpt).1 b hb'
        have h2 : b0.startsOnDay ≤ b0.endsOnDay :=
          hvt b0 (List.mem_cons_self _ _)
        omega

theorem createPeriods_length_aux (F : Int → List Period) (k : Nat)
    (hk : ∀ y, (F y).length = k) (sy ey : Int) :
    ((yearsRange sy ey).flatMap F).length = k * (ey + 1 - sy).toNat := by
  generalize hN : (ey + 1 - sy).toNat = N
  induction N generalizing sy with
  | zero =>
    have hnil : yearsRange sy ey = [] := by simp [yearsRange, hN]
    simp [hnil]
  | succ n ih =>
    have hle : sy ≤ ey := by omega
    rw [yearsRange_cons sy ey hle, List.flatMap_cons, List.length_append, hk,
      ih (sy + 1) (by omega)]
    ring

/-- C3: for a company with base period Month and a generated range of
`N = endYear - startYear + 1` years, `createPeriodsForCompany` produces
exactly `12 x N` periods (`4 x N` for Quarter); the output is ordered by
`startsOn`, consecutive periods are contiguous (`endsOn` plus one day is the
next `startsOn`), and no two periods overlap (each period ends strictly
before every later period starts, and every period has `startsOn ≤
endsOn`). -/
theorem period_tiling_C3 (ids : Int → Int → String) (c : Company)
    (nowMs startYear endYear : Int) :
    (c.basePeriod = BasePeriod.Month →
      (createPeriodsForCompany ids c nowMs startYear endYear).length =
        12 * (endYear + 1 - startYear).toNat) ∧
    (c.basePeriod = BasePeriod.Quarter →
      (createPeriodsForCompany ids c nowMs startYear endYear).length =
        4 * (endYear + 1 - startYear).toNat) ∧
    (∀ p ∈ createPeriodsForCompany ids c nowMs startYear endYear,
      p.startsOnDay ≤ p.endsOnDay) ∧
    (createPeriodsForCompany ids c nowMs startYear endYear).Chain'
      (fun p q => p.endsOnDay + 1 = q.startsOnDay) ∧
    (createPeriodsForCompany ids c nowMs startYear endYear).Pairwise
      (fun p q => p.endsOnDay < q.startsOnDay) ∧
    (createPeriodsForCompany ids c nowMs startYear endYear).Pairwise
      (fun p q => p.startsOnDay < q.startsOnDay) := by
  have hval : ∀ p ∈ createPeriodsForCompany ids c nowMs startYear endYear,
      p.startsOnDay ≤ p.endsOnDay := by
    intro p hp
    simp only [createPeriodsForCompany, List.mem_flatMap] at hp
    obtain ⟨y, hy, hmem⟩ := hp
    obtain ⟨pid, dn, sm, em, rfl, hspan⟩ := mem_periodsForYear hmem
    simp only [buildPeriod_startsOnDay, buildPeriod_endsOnDay]
    omega
  have hchain : (createPeriodsForCompany ids c nowMs startYear endYear).Chain'
      (fun p q => p.endsOnDay + 1 = q.startsOnDay) := by
    simp only [createPeriodsForCompany]
    exact flatMap_yearsRange_chain' _ _ (periodsForYear_chain' ids c nowMs)
      (periodsForYear_ne_nil ids c nowMs) (periodsForYear_link ids c nowMs)
      startYear endYear
  have hpw := pairwise_of_chain'_valid _ hchain hval
  have hpw2 : (createPeriodsForCompany ids c nowMs startYear endYear).Pairwise
      (fun p q => p.startsOnDay < q.startsOnDay) := by
    refine List.Pairwise.imp_of_mem ?_ hpw
    intro a b ha hb hr
    exact lt_of_le_of_lt (hval a ha) hr
  refine ⟨?_, ?_, hval, hchain, hpw, hpw2⟩
  · intro hc
    exact createPeriods_length_aux _ 12
      (periodsForYear_length_month hc ids nowMs) startYear endYear
  · intro hc
    exact createPeriods_length_aux _ 4
      (periodsForYear_length_quarter hc ids nowMs) startYear endYear

/-- C3 witness: a monthly company generated for the single year 2024 yields
exactly 12 periods. -/
theorem period_tiling_C3_witness :
    (createPeriodsForCompany (fun _ _ => "") companyAFix 0 2024 2024).length =
      12 := by
  have h := (period_tiling_C3 (fun _ _ => "") companyAFix 0 2024 2024).1 rfl
  omega

/-- C4: every generated period has `targetClose` equal to the nearest
non-weekend day on or before `endsOn` minus 7 days (the anchor itself when it
is a weekday); concretely, the March 2024 monthly period starts 2024-03-01,
ends 2024-03-31, its anchor 2024-03-24 is a Sunday, and its target close is
Friday 2024-03-22. -/
theorem target_close_business_day_C4 :
    (∀ (ids : Int → Int → String) (c : Company) (nowMs startYear endYear : Int),
      ∀ p ∈ createPeriodsForCompany ids c nowMs startYear endYear,
        isWeekendDay p.targetCloseDay = false ∧
        p.targetCloseDay ≤ p.endsOnDay - 7 ∧
        ∀ e : Int, p.targetCloseDay < e → e ≤ p.endsOnDay - 7 →
          isWeekendDay e = true) ∧
    ((createPeriodsForCompany (fun _ _ => "") companyAFix 0 2024 2024).getD 2
        default).startsOnDay = daysFromCivil 2024 3 1 ∧
    ((createPeriodsForCompany (fun _ _ => "") companyAFix 0 2024 2024).getD 2
        default).endsOnDay = daysFromCivil 2024 3 31 ∧
    ((createPeriodsForCompany (fun _ _ => "") companyAFix 0 2024 2024).getD 2
        default).targetCloseDay = daysFromCivil 2024 3 22 ∧
    daysFromCivil 2024 3 31 - 7 = daysFromCivil 2024 3 24 ∧
    isoWeekday (daysFromCivil 2024 3 24) = 7 ∧
    isoWeekday (daysFromCivil 2024 3 22) = 5 := by
  constructor
  · intro ids c nowMs sy ey p hp
    simp only [createPeriodsForCompany, List.mem_flatMap] at hp
    obtain ⟨y, hy, hmem⟩ := hp
    obtain ⟨pid, dn, sm, em, rfl, hspan⟩ := mem_periodsForYear hmem
    have htc := buildPeriod_targetCloseDay pid c nowMs dn y sm em
    have hend := buildPeriod_endsOnDay pid c nowMs dn y sm em
    have hanchor : (buildPeriod pid c nowMs dn y sm em).endsOnDay - 7 =
        nextMonthStartDay y em - 8 := by omega
    obtain ⟨h1, _h2, h3, h4⟩ :=
      nearestPreviousBusinessDay_spec (nextMonthStartDay y em - 8)
    rw [htc, hanchor]
    exact ⟨h1, h3, h4⟩
  · refine ⟨?_, ?_, ?_, ?_, ?_, ?_⟩ <;> decide

/-- C4 witness: the theorem applied to the March 2024 period of a concrete
monthly company. -/
theorem target_close_business_day_C4_witness :
    isWeekendDay
      ((createPeriodsForCompany (fun _ _ => "") companyAFix 0 2024 2024).getD 2
        default).targetCloseDay = false := by
  have h := (target_close_business_day_C4).1 (fun _ _ => "") companyAFix 0 2024
    2024
    ((createPeriodsForCompany (fun _ _ => "") companyAFix 0 2024 2024).getD 2
      default) (by decide)
  exact h.1

/-- C8: a generated period has status closed exactly when its `endsOn`
calendar day is before the current UTC day of the generation clock, and open
otherwise. -/
theorem period_status_by_date_C8 (ids : Int → Int → String) (c : Company)
    (nowMs startYear endYear : Int) :
    ∀ p ∈ createPeriodsForCompany ids c nowMs startYear endYear,
      (p.status = PeriodStatus.closed ↔ p.endsOnDay < dayOfMs nowMs) ∧
      (p.status = PeriodStatus.open_ ↔ ¬ p.endsOnDay < dayOfMs nowMs) := by
  intro p hp
  simp only [createPeriodsForCompany, List.mem_flatMap] at hp
  obtain ⟨y, hy, hmem⟩ := hp
  obtain ⟨pid, dn, sm, em, rfl, hspan⟩ := mem_periodsForYear hmem
  have h1 := buildPeriod_status_iff pid c nowMs dn y sm em
  refine ⟨h1, ?_⟩
  rw [← h1]
  cases hs : (buildPeriod pid c nowMs dn y sm em).status <;> simp [hs]

/-- C8 witness: with the clock on day 19900 (June 2024), the March 2024
period of a concrete monthly company is closed. -/
theorem period_status_by_date_C8_witness :
    ((createPeriodsForCompany (fun _ _ => "") companyAFix (19900 * 86400000)
        2024 2024).getD 2 default).status = PeriodStatus.closed := by
  have h := period_status_by_date_C8 (fun _ _ => "") companyAFix
    (19900 * 86400000) 2024 2024
    ((createPeriodsForCompany (fun _ _ => "") companyAFix (19900 * 86400000)
        2024 2024).getD 2 default) (by decide)
  exact h.1.mpr (by decide)

/-! ## Facts about the generated accounts -/

theorem createRandomAccount_parent_inactive (r : AccountRand) (company : Company)
    (classification : AccountClassification) (p : Account)
    (h : p.active = false) :
    (createRandomAccount r company classification (some p)).active = false := by
  simp [createRandomAccount, h]

theorem createRandomAccount_parentAccountId_some (r : AccountRand)
    (company : Company) (classification : AccountClassification) (p : Account) :
    (createRandomAccount r company classification (some p)).parentAccountId =
      some p.id := rfl

theorem createRandomAccount_parentAccountId_none (r : AccountRand)
    (company : Company) (classification : AccountClassification) :
    (createRandomAccount r company classification none).parentAccountId =
      none := rfl

theorem accountsStep_invariant (o : AccountsOracle) (company : Company)
    (st : AccountsState) (i : Nat) (h : accountsInvariant st) :
    accountsInvariant (accountsStep o company st i) := by
  obtain ⟨hmain, hsub⟩ := h
  have hregular : accountsInvariant
      { accounts := st.accounts ++
          [createRandomAccount (o.accRand i) company
            (randomEnum accountClassificationValues AccountClassification.Unknown
              (o.clsIdx i)) none]
        parentAccounts := st.parentAccounts ++
          [createRandomAccount (o.accRand i) company
            (randomEnum accountClassificationValues AccountClassification.Unknown
              (o.clsIdx i)) none] } := by
    constructor
    · intro a ha pid hpid
      rcases List.mem_append.mp ha with ha' | ha''
      · obtain ⟨q, hq, hqid, himp⟩ := hmain a ha' pid hpid
        exact ⟨q, List.mem_append_left _ hq, hqid, himp⟩
      · have ha3 : a = createRandomAccount (o.accRand i) company
            (randomEnum accountClassificationValues
              AccountClassification.Unknown (o.clsIdx i)) none := by
          simpa using ha''
        rw [ha3, createRandomAccount_parentAccountId_none] at hpid
        cases hpid
    · intro q hq
      rcases List.mem_append.mp hq with hq' | hq''
      · exact List.mem_append_left _ (hsub q hq')
      · exact List.mem_append_right _ hq''
  simp only [accountsStep]
  split_ifs with h1 h2
  · -- child branch
    set classification :=
      randomEnum accountClassificationValues AccountClassification.Unknown
        (o.clsIdx i) with hcls
    set potentialParents := st.parentAccounts.filter
      (fun parent => decide (parent.classification = classification)) with hpp
    set parentAccount := pickElem
      (Account.mk "" "" false none AccountClassification.Unknown)
      potentialParents (o.parentIdx i) with hpa
    have hparent_mem : parentAccount ∈ potentialParents :=
      pickElem_mem _ _ _ h2
    have hparent_acc : parentAccount ∈ st.accounts := by
      have := List.mem_filter.mp (hpp ▸ hparent_mem)
      exact hsub _ this.1
    constructor
    · intro a ha pid hpid
      rcases List.mem_append.mp ha with ha' | ha''
      · obtain ⟨q, hq, hqid, himp⟩ := hmain a ha' pid hpid
        exact ⟨q, List.mem_append_left _ hq, hqid, himp⟩
      · have ha3 : a = createRandomAccount (o.accRand i) company
            classification (some parentAccount) := by
          simpa using ha''
        have hpid2 : pid = parentAccount.id := by
          rw [ha3, createRandomAccount_parentAccountId_some] at hpid
          exact (Option.some.injEq _ _ ▸ hpid).symm
        refine ⟨parentAccount, List.mem_append_left _ hparent_acc,
          hpid2.symm, ?_⟩
        intro hinact
        rw [ha3]
        exact createRandomAccount_parent_inactive _ _ _ _ hinact
    · intro q hq
      exact List.mem_append_left _ (hsub q hq)
  · exact hregular
  · exact hregular

theorem foldl_accountsStep_invariant (o : AccountsOracle) (company : Company)
    (l : List Nat) (st : AccountsState) (h : accountsInvariant st) :
    accountsInvariant (l.foldl (accountsStep o company) st) := by
  induction l generalizing st with
  | nil => exact h
  | cons x xs ih =>
    exact ih _ (accountsStep_invariant o company st x h)

theorem createAccountsForCompany_invariant (o : AccountsOracle)
    (company : Company) (minAccounts maxAccounts : Nat) :
    ∀ a ∈ createAccountsForCompany o company minAccounts maxAccounts,
    ∀ pid, a.parentAccountId = some pid →
      ∃ q ∈ createAccountsForCompany o company minAccounts maxAccounts,
        q.id = pid ∧ (q.active = false → a.active = false) := by
  have hinit : accountsInvariant
      { accounts := accountClassificationValues.enum.map (fun ci =>
          createRandomAccount (o.accRand ci.1) company ci.2 none)
        parentAccounts := accountClassificationValues.enum.map (fun ci =>
          createRandomAccount (o.accRand ci.1) company ci.2 none) } := by
    constructor
    · intro a ha pid hpid
      simp only [List.mem_map] at ha
      obtain ⟨ci, _, rfl⟩ := ha
      rw [createRandomAccount_parentAccountId_none] at hpid
      cases hpid
    · intro q hq
      exact hq
  have hfold := foldl_accountsStep_invariant o company
    ((List.range (natBetween o.numDraw minAccounts maxAccounts -
        accountClassificationValues.length)).map
      (fun k => k + accountClassificationValues.length)) _ hinit
  exact hfold.1

/-- C9: among the accounts generated by `createAccountsForCompany` (with the
cuid contract that generated ids are pairwise distinct), an account whose
parent account is inactive is itself inactive. -/
theorem inactive_parent_child_C9 (o : AccountsOracle) (company : Company)
    (minAccounts maxAccounts : Nat)
    (hids : ((createAccountsForCompany o company minAccounts maxAccounts).map
      (fun a => a.id)).Nodup) :
    ∀ a ∈ createAccountsForCompany o company minAccounts maxAccounts,
    ∀ p ∈ createAccountsForCompany o company minAccounts maxAccounts,
      a.parentAccountId = some p.id → p.active = false → a.active = false := by
  intro a ha p hp hpid hpact
  obtain ⟨q, hq, hqid, himp⟩ :=
    createAccountsForCompany_invariant o company minAccounts maxAccounts a ha
      p.id hpid
  have hqp : q = p := List.inj_on_of_nodup_map hids hq hp hqid
  exact himp (hqp ▸ hpact)

/-- C9 witness: in a concrete seven-account run the seventh account is a
child of the inactive initial Asset account and is itself inactive. -/
theorem inactive_parent_child_C9_witness :
    ((createAccountsForCompany accountsOracleFix companyAFix 7 7).map
      (fun a => a.id)).Nodup ∧
    ((createAccountsForCompany accountsOracleFix companyAFix 7 7).getD 6
      default).parentAccountId = some "acct0" ∧
    ((createAccountsForCompany accountsOracleFix companyAFix 7 7).getD 0
      default).active = false ∧
    ((createAccountsForCompany accountsOracleFix companyAFix 7 7).getD 6
      default).active = false := by
  refine ⟨by decide, by decide, by decide, ?_⟩
  exact inactive_parent_child_C9 accountsOracleFix companyAFix 7 7 (by decide)
    ((createAccountsForCompany accountsOracleFix companyAFix 7 7).getD 6
      default) (by decide)
    ((createAccountsForCompany accountsOracleFix companyAFix 7 7).getD 0
      default) (by decide) (by decide) (by decide)

/-! ## Facts about the generated journal lines -/

theorem getD_mem {α : Type} (l : List α) (i : Nat) (d : α)
    (h : i < l.length) : l.getD i d ∈ l := by
  rw [List.getD_eq_getElem l d h]
  exact List.getElem_mem h

theorem mem_dedupFirstAux {α : Type} [DecidableEq α] (x : α) :
    ∀ (l seen : List α), x ∈ dedupFirstAux seen l ↔ x ∈ l ∧ x ∉ seen := by
  intro l
  induction l with
  | nil => intro seen; simp [dedupFirstAux]
  | cons c cs ih =>
    intro seen
    simp only [dedupFirstAux]
    split_ifs with hc
    · rw [ih seen]
      simp only [List.mem_cons]
      constructor
      · rintro ⟨hx, hns⟩
        exact ⟨Or.inr hx, hns⟩
      · rintro ⟨hor, hns⟩
        rcases hor with rfl | hx
        · exact absurd hc hns
        · exact ⟨hx, hns⟩
    · simp only [List.mem_cons, ih (c :: seen)]
      constructor
      · rintro (rfl | ⟨hx, hns⟩)
        · exact ⟨Or.inl rfl, hc⟩
        · exact ⟨Or.inr hx, fun hxs => hns (Or.inr hxs)⟩
      · rintro ⟨hor, hns⟩
        rcases hor with rfl | hx
        · exact Or.inl rfl
        · by_cases hxc : x = c
          · exact Or.inl hxc
          · refine Or.inr ⟨hx, fun hmem => ?_⟩
            rcases hmem with h1 | h2
            · exact hxc h1
            · exact hns h2

theorem mem_dedupFirst {α : Type} [DecidableEq α] (x : α) (l : List α) :
    x ∈ dedupFirst l ↔ x ∈ l := by
  rw [dedupFirst, mem_dedupFirstAux]
  simp

theorem mem_classificationKeys (c : AccountClassification)
    (accounts : List Account) :
    c ∈ classificationKeys accounts ↔
      ∃ a ∈ accounts, a.classification = c := by
  rw [classificationKeys, mem_dedupFirst]
  simp [List.mem_map]

theorem mem_availableAccountsFor {a : Account} (journalEntry : JournalEntry)
    (accounts : List Account) (nowMs : Int)
    (h : a ∈ availableAccountsFor journalEntry accounts nowMs) :
    a ∈ accounts ∧ a.companyId = journalEntry.companyId ∧
      (nowMs ≤ journalEntry.transactionDate → a.active = true) := by
  simp only [availableAccountsFor] at h
  split_ifs at h with hreq
  · have h2 := List.mem_filter.mp h
    have h3 := List.mem_filter.mp h2.1
    exact ⟨h3.1, by simpa using h3.2, fun _ => h2.2⟩
  · have h3 := List.mem_filter.mp h
    exact ⟨h3.1, by simpa using h3.2, fun hcon => absurd hcon hreq⟩

theorem filter_classification_ne_nil {c : AccountClassification}
    {avail : List Account} (hc : c ∈ classificationKeys avail) :
    avail.filter (fun a => decide (a.classification = c)) ≠ [] := by
  obtain ⟨a, ha, hac⟩ := (mem_classificationKeys c avail).mp hc
  exact List.ne_nil_of_mem
    (List.mem_filter.mpr ⟨ha, by simpa using hac⟩)

theorem numLinesFor_ge_two (r : LinesRand)
    (cls : List AccountClassification) : 2 ≤ numLinesFor r cls :=
  natBetween_lower _ _ _

theorem numLinesFor_le_five (r : LinesRand)
    (cls : List AccountClassification) : numLinesFor r cls ≤ 5 := by
  have h5 : 2 ≤ min 5 (if 1 < cls.length then cls.length else 5) := by
    split_ifs <;> omega
  have h2 := natBetween_upper r.numLinesDraw 2
    (min 5 (if 1 < cls.length then cls.length else 5)) h5
  rw [numLinesFor]
  omega

theorem numLinesFor_le_length (r : LinesRand)
    (cls : List AccountClassification) (h : 1 < cls.length) :
    numLinesFor r cls ≤ cls.length := by
  have h5 : 2 ≤ min 5 (if 1 < cls.length then cls.length else 5) := by
    rw [if_pos h]
    omega
  have h2 := natBetween_upper r.numLinesDraw 2
    (min 5 (if 1 < cls.length then cls.length else 5)) h5
  rw [numLinesFor, if_pos h]
  rw [if_pos h] at h2
  omega

theorem selected_getD_mem (r : LinesRand) (cls : List AccountClassification)
    (hsh : (r.shuffleCls cls).Perm cls) (hne : cls ≠ []) {i : Nat}
    (hi : i < numLinesFor r cls) :
    (selectedClassificationsFor r cls (numLinesFor r cls)).getD i
      AccountClassification.Unknown ∈ cls := by
  rw [selectedClassificationsFor]
  split_ifs with hlen
  · have hlen_sh : (r.shuffleCls cls).length = cls.length := hsh.length_eq
    have hnum := numLinesFor_le_length r cls hlen
    have hlt : i < ((r.shuffleCls cls).take (numLinesFor r cls)).length := by
      rw [List.length_take]
      omega
    have hmem := getD_mem _ i AccountClassification.Unknown hlt
    exact hsh.subset (List.take_subset _ _ hmem)
  · have hlt : i < (List.replicate (numLinesFor r cls)
        (cls.getD 0 AccountClassification.Unknown)).length := by
      rw [List.length_replicate]
      exact hi
    have hmem := getD_mem _ i AccountClassification.Unknown hlt
    rw [List.eq_of_mem_replicate hmem]
    exact getD_mem cls 0 AccountClassification.Unknown
      (List.length_pos.mpr hne)

theorem journalLineFor_amount (r : LinesRand) (je : JournalEntry)
    (avail : List Account) (sel : List AccountClassification) (i : Nat)
    (amount : Int) :
    (journalLineFor r je avail sel i amount).amount = amount := rfl

theorem journalLineFor_accountId (r : LinesRand) (je : JournalEntry)
    (avail : List Account) (sel : List AccountClassification) (i : Nat)
    (amount : Int)
    (hne : avail.filter (fun a => decide (a.classification =
      sel.getD i AccountClassification.Unknown)) ≠ []) :
    ∃ acct ∈ avail,
      (journalLineFor r je avail sel i amount).accountId = some acct.id := by
  have hmem := pickElem_mem placeholderAccount _ (r.lineAccountIdx i) hne
  exact ⟨_, (List.mem_filter.mp hmem).1, rfl⟩

theorem createRandomJournalLines_shape (r : LinesRand) (je : JournalEntry)
    (accounts : List Account) (nowMs : Int) :
    (createRandomJournalLines r je accounts nowMs = []) ∨
    (∃ acct ∈ availableAccountsFor je accounts nowMs,
      createRandomJournalLines r je accounts nowMs =
        [⟨r.zeroLineId, je.companyId, je.id, some acct.id, 0⟩]) ∨
    (availableAccountsFor je accounts nowMs ≠ [] ∧
      classificationKeys (availableAccountsFor je accounts nowMs) ≠ [] ∧
      createRandomJournalLines r je accounts nowMs =
        (List.range (numLinesFor r
            (classificationKeys (availableAccountsFor je accounts nowMs)) -
            1)).map
          (fun i =>
            journalLineFor r je (availableAccountsFor je accounts nowMs)
              (selectedClassificationsFor r
                (classificationKeys (availableAccountsFor je accounts nowMs))
                (numLinesFor r
                  (classificationKeys
                    (availableAccountsFor je accounts nowMs))))
              i (loopAmount (r.amountDraws i))) ++
          [journalLineFor r je (availableAccountsFor je accounts nowMs)
            (selectedClassificationsFor r
              (classificationKeys (availableAccountsFor je accounts nowMs))
              (numLinesFor r
                (classificationKeys (availableAccountsFor je accounts nowMs))))
            (numLinesFor r
              (classificationKeys (availableAccountsFor je accounts nowMs)) -
              1)
            (-(((List.range (numLinesFor r
                  (classificationKeys
                    (availableAccountsFor je accounts nowMs)) - 1)).map
                (fun i => loopAmount (r.amountDraws i))).sum))]) := by
  simp only [createRandomJournalLines]
  split_ifs with h1 h2 h3 h4
  · exact Or.inl rfl
  · exact Or.inl rfl
  · exact Or.inl rfl
  · refine Or.inr (Or.inl ?_)
    have hne : availableAccountsFor je accounts nowMs ≠ [] := by
      intro hcon
      rw [hcon] at h2
      simp at h2
    exact ⟨pickElem placeholderAccount _ r.zeroAccountIdx,
      pickElem_mem _ _ _ hne, rfl⟩
  · refine Or.inr (Or.inr ⟨?_, ?_, rfl⟩)
    · intro hcon
      rw [hcon] at h2
      simp at h2
    · intro hcon
      rw [hcon] at h3
      simp at h3

/-- C1: the journal lines built by `createRandomJournalLines` for an entry
with status Scheduled or Posted that has at least one line always sum to
zero. -/
theorem balance_law_C1 (r : LinesRand) (je : JournalEntry)
    (accounts : List Account) (nowMs : Int)
    (_hstatus : je.status = JournalEntryStatus.Scheduled ∨
      je.status = JournalEntryStatus.Posted)
    (_hne : createRandomJournalLines r je accounts nowMs ≠ []) :
    ((createRandomJournalLines r je accounts nowMs).map
      (fun l => l.amount)).sum = 0 := by
  rcases createRandomJournalLines_shape r je accounts nowMs with
    h | ⟨acct, _, h⟩ | ⟨_, _, h⟩
  · rw [h]; simp
  · rw [h]; simp
  · rw [h]
    rw [List.map_append, List.sum_append, List.map_map]
    simp only [Function.comp_def, journalLineFor_amount, List.map_cons,
      List.map_nil, List.sum_cons, List.sum_nil]
    omega

/-- C1 witness: a concrete posted entry with two accounts gets a non-empty
balanced line set. -/
theorem balance_law_C1_witness :
    entryPostedFix.status = JournalEntryStatus.Posted ∧
    createRandomJournalLines linesRandFix entryPostedFix
      [accountAssetFix, accountIncomeFix] 0 ≠ [] ∧
    ((createRandomJournalLines linesRandFix entryPostedFix
      [accountAssetFix, accountIncomeFix] 0).map (fun l => l.amount)).sum =
      0 := by
  refine ⟨by decide, by decide, ?_⟩
  exact balance_law_C1 linesRandFix entryPostedFix
    [accountAssetFix, accountIncomeFix] 0 (Or.inr (by decide)) (by decide)

/-- C6: when the transaction date of the entry is on or after the clock
instant, every journal line built by `createRandomJournalLines` references an
active account (given the lodash shuffle contract and the cuid distinct-id
contract). -/
theorem active_account_rule_C6 (r : LinesRand) (je : JournalEntry)
    (accounts : List Account) (nowMs : Int)
    (hsh : ∀ l, (r.shuffleCls l).Perm l)
    (hids : (accounts.map (fun a => a.id)).Nodup)
    (hdate : nowMs ≤ je.transactionDate) :
    ∀ l ∈ createRandomJournalLines r je accounts nowMs,
    ∀ acct ∈ accounts, l.accountId = some acct.id → acct.active = true := by
  have key : ∀ l ∈ createRandomJournalLines r je accounts nowMs,
      ∃ acct ∈ accounts, l.accountId = some acct.id ∧ acct.active = true := by
    rcases createRandomJournalLines_shape r je accounts nowMs with
      h | ⟨acct, hacct, h⟩ | ⟨hne, hcls, h⟩
    · rw [h]; intro l hl; cases hl
    · rw [h]
      intro l hl
      have hl2 : l = ⟨r.zeroLineId, je.companyId, je.id, some acct.id, 0⟩ := by
        simpa using hl
      obtain ⟨ha1, _, ha3⟩ := mem_availableAccountsFor je accounts nowMs hacct
      exact ⟨acct, ha1, by rw [hl2], ha3 hdate⟩
    · rw [h]
      intro l hl
      have hnum2 := numLinesFor_ge_two r
        (classificationKeys (availableAccountsFor je accounts nowMs))
      rcases List.mem_append.mp hl with hl1 | hl2
      · simp only [List.mem_map, List.mem_range] at hl1
        obtain ⟨i, hi, rfl⟩ := hl1
        have hcmem := selected_getD_mem r _ (hsh _) hcls
          (show i < numLinesFor r
            (classificationKeys (availableAccountsFor je accounts nowMs))
            by omega)
        obtain ⟨acct, hacct, hid⟩ :=
          journalLineFor_accountId r je _ _ i _
            (filter_classification_ne_nil hcmem)
        obtain ⟨ha1, _, ha3⟩ := mem_availableAccountsFor je accounts nowMs hacct
        exact ⟨acct, ha1, hid, ha3 hdate⟩
      · have hl3 := by simpa using hl2
        rw [hl3]
        have hcmem := selected_getD_mem r _ (hsh _) hcls
          (show numLinesFor r
              (classificationKeys (availableAccountsFor je accounts nowMs)) -
                1 <
              numLinesFor r
                (classificationKeys (availableAccountsFor je accounts nowMs))
            by omega)
        obtain ⟨acct, hacct, hid⟩ :=
          journalLineFor_accountId r je _ _ _ _
            (filter_classification_ne_nil hcmem)
        obtain ⟨ha1, _, ha3⟩ := mem_availableAccountsFor je accounts nowMs hacct
        exact ⟨acct, ha1, hid, ha3 hdate⟩
  intro l hl acct hacct hid
  obtain ⟨acct2, hacct2, hid2, hact2⟩ := key l hl
  have hids_eq : acct2.id = acct.id := by
    rw [hid] at hid2
    exact (Option.some.inj hid2).symm
  have heq : acct2 = acct :=
    List.inj_on_of_nodup_map hids hacct2 hacct hids_eq
  rw [← heq]
  exact hact2

/-- C6 witness: the concrete run of `balance_law_C1_witness` references the
active Asset account on its first line. -/
theorem active_account_rule_C6_witness :
    (([accountAssetFix, accountIncomeFix].map (fun a => a.id)).Nodup) ∧
    ((createRandomJournalLines linesRandFix entryPostedFix
      [accountAssetFix, accountIncomeFix] 0).getD 0 default).accountId =
      some accountAssetFix.id ∧
    accountAssetFix.active = true := by
  refine ⟨by decide, by decide, ?_⟩
  exact active_account_rule_C6 linesRandFix entryPostedFix
    [accountAssetFix, accountIncomeFix] 0 (fun l => List.Perm.refl l)
    (by decide) (by decide)
    ((createRandomJournalLines linesRandFix entryPostedFix
      [accountAssetFix, accountIncomeFix] 0).getD 0 default) (by decide)
    accountAssetFix (by decide) (by decide)

/-- C10: in every terminating run (each amount loop exits), all line amounts
are integers in the signed 32-bit range: the non-balancing lines carry
nonzero amounts bounded by 500000000 in absolute value and the final line
carries exactly the negated sum of the others. -/
theorem line_amount_int32_C10 (r : LinesRand) (je : JournalEntry)
    (accounts : List Account) (nowMs : Int)
    (hterm : ∀ i, loopAmount (r.amountDraws i) ≠ 0) :
    (∀ l ∈ createRandomJournalLines r je accounts nowMs,
      -(2 ^ 31) ≤ l.amount ∧ l.amount ≤ 2 ^ 31 - 1) ∧
    (createRandomJournalLines r je accounts nowMs ≠ [] →
      (∃ l, createRandomJournalLines r je accounts nowMs = [l] ∧
        l.amount = 0) ∨
      ∃ ls lb, createRandomJournalLines r je accounts nowMs = ls ++ [lb] ∧
        (∀ l ∈ ls, l.amount ≠ 0 ∧ -500000000 ≤ l.amount ∧
          l.amount ≤ 500000000) ∧
        lb.amount = -((ls.map (fun l => l.amount)).sum)) := by
  have h31 : (2 : Int) ^ 31 = 2147483648 := by norm_num
  rcases createRandomJournalLines_shape r je accounts nowMs with
    h | ⟨acct, hacct, h⟩ | ⟨hne, hcls, h⟩
  · rw [h]
    exact ⟨by simp, fun hcon => absurd rfl hcon⟩
  · rw [h]
    constructor
    · intro l hl
      have hl2 : l = ⟨r.zeroLineId, je.companyId, je.id, some acct.id, 0⟩ := by
        simpa using hl
      rw [hl2, h31]
      constructor <;> norm_num
    · intro _
      exact Or.inl ⟨_, rfl, rfl⟩
  · rw [h]
    have hk5 := numLinesFor_le_five r
      (classificationKeys (availableAccountsFor je accounts nowMs))
    have hk2 := numLinesFor_ge_two r
      (classificationKeys (availableAccountsFor je accounts nowMs))
    have hamts : ∀ x ∈ (List.range (numLinesFor r
        (classificationKeys (availableAccountsFor je accounts nowMs)) -
          1)).map (fun i => loopAmount (r.amountDraws i)),
        -500000000 ≤ x ∧ x ≤ 500000000 := by
      intro x hx
      simp only [List.mem_map] at hx
      obtain ⟨i, _, rfl⟩ := hx
      exact loopAmount_range _
    have hsum := sum_bounded 500000000 _ hamts
    have hlen : ((List.range (numLinesFor r
        (classificationKeys (availableAccountsFor je accounts nowMs)) -
          1)).map (fun i => loopAmount (r.amountDraws i))).length =
        numLinesFor r
          (classificationKeys (availableAccountsFor je accounts nowMs)) -
          1 := by
      simp
    constructor
    · intro l hl
      rcases List.mem_append.mp hl with hl1 | hl2
      · simp only [List.mem_map, List.mem_range] at hl1
        obtain ⟨i, _, rfl⟩ := hl1
        rw [journalLineFor_amount]
        have := loopAmount_range (r.amountDraws i)
        rw [h31]
        omega
      · have hl3 := by simpa using hl2
        rw [hl3, journalLineFor_amount]
        rw [hlen] at hsum
        rw [h31]
        omega
    · intro _
      refine Or.inr ⟨_, _, rfl, ?_, ?_⟩
      · intro l hl
        simp only [List.mem_map, List.mem_range] at hl
        obtain ⟨i, _, rfl⟩ := hl
        rw [journalLineFor_amount]
        exact ⟨hterm i, loopAmount_range _⟩
      · rw [journalLineFor_amount, List.map_map]
        rfl

/-- C10 witness: the first line of the concrete run of
`balance_law_C1_witness` is in the 32-bit range. -/
theorem line_amount_int32_C10_witness :
    -(2 ^ 31) ≤ ((createRandomJournalLines linesRandFix entryPostedFix
      [accountAssetFix, accountIncomeFix] 0).getD 0 default).amount ∧
    ((createRandomJournalLines linesRandFix entryPostedFix
      [accountAssetFix, accountIncomeFix] 0).getD 0 default).amount ≤
      2 ^ 31 - 1 := by
  have hterm : ∀ i, loopAmount (linesRandFix.amountDraws i) ≠ 0 := by
    intro i
    show loopAmount [7] ≠ 0
    decide
  exact (line_amount_int32_C10 linesRandFix entryPostedFix
    [accountAssetFix, accountIncomeFix] 0 hterm).1
    ((createRandomJournalLines linesRandFix entryPostedFix
      [accountAssetFix, accountIncomeFix] 0).getD 0 default) (by decide)

/-! ## Facts about the generated journal entries -/

/-- C5: an entry of a period starting strictly after the clock instant is
forced to status Scheduled; for any other period every status (Draft,
Scheduled, Posted) is reachable by some draw of `randomEnum`. -/
theorem future_period_scheduled_C5 (r : EntryRand) (company : Company)
    (period : Period) (users : List User) (displayId : Nat) (nowMs : Int) :
    (nowMs < period.startsOnMs →
      (createRandomJournalEntry r company period users displayId nowMs).status =
        JournalEntryStatus.Scheduled) ∧
    (¬ nowMs < period.startsOnMs →
      ∀ s : JournalEntryStatus, ∃ r2 : EntryRand,
        (createRandomJournalEntry r2 company period users displayId
          nowMs).status = s) := by
  constructor
  · intro h
    simp only [createRandomJournalEntry]
    rw [if_pos h]
  · intro h s
    cases s with
    | Draft =>
      refine ⟨⟨"", 0, 0, false, 0⟩, ?_⟩
      simp only [createRandomJournalEntry]
      rw [if_neg h]
      rfl
    | Scheduled =>
      refine ⟨⟨"", 0, 0, false, 1⟩, ?_⟩
      simp only [createRandomJournalEntry]
      rw [if_neg h]
      rfl
    | Posted =>
      refine ⟨⟨"", 0, 0, false, 2⟩, ?_⟩
      simp only [createRandomJournalEntry]
      rw [if_neg h]
      rfl

/-- C5 witness: a period starting on day 31 with the clock at instant 0
forces status Scheduled. -/
theorem future_period_scheduled_C5_witness :
    (createRandomJournalEntry entryRandFix companyBFix periodBFix [userBFix] 1
      0).status = JournalEntryStatus.Scheduled := by
  exact (future_period_scheduled_C5 entryRandFix companyBFix periodBFix
    [userBFix] 1 0).1 (by decide)

theorem createRandomJournalEntry_displayId (r : EntryRand) (company : Company)
    (period : Period) (users : List User) (displayId : Nat) (nowMs : Int) :
    (createRandomJournalEntry r company period users displayId
      nowMs).displayId = displayId := rfl

theorem entriesInvariant_append (st : EntriesState) (je : JournalEntry)
    (ls : List JournalLine) (h : entriesInvariant st)
    (hje : je.displayId = st.globalDisplayId) :
    entriesInvariant
      { journalEntries := st.journalEntries ++ [je]
        journalLines := st.journalLines ++ ls
        globalDisplayId := st.globalDisplayId + 1 } := by
  obtain ⟨hmap, hcount⟩ := h
  constructor
  · simp only [List.map_append, List.map_cons, List.map_nil,
      List.length_append, List.length_cons, List.length_nil, hmap]
    rw [hje, hcount]
    rw [show st.journalEntries.length + (0 + 1) =
      st.journalEntries.length + 1 from by omega]
    rw [List.range'_1_concat]
    congr 1
    simp [Nat.add_comm]
  · simp only [List.length_append, List.length_cons, List.length_nil]
    omega

theorem entriesForPeriod_invariant (o : EntriesOracle)
    (companies : List Company) (users : List User) (accounts : List Account)
    (minEntries maxEntries : Nat) (st : EntriesState) (period : Period)
    (h : entriesInvariant st) :
    entriesInvariant
      (entriesForPeriod o companies users accounts minEntries maxEntries st
        period) := by
  simp only [entriesForPeriod]
  cases hfind : companies.find? (fun c => decide (c.id = period.companyId)) with
  | none => exact h
  | some company =>
    dsimp only
    generalize List.range (natBetween (o.numEntriesDraw period.id) minEntries
      maxEntries) = l
    induction l generalizing st with
    | nil => exact h
    | cons a t ih =>
      rw [List.foldl_cons]
      exact ih _ (entriesInvariant_append st _ _ h
        (createRandomJournalEntry_displayId _ _ _ _ _ _))

theorem createJournalEntries_invariant (o : EntriesOracle)
    (companies : List Company) (periods : List Period) (users : List User)
    (accounts : List Account) (minEntries maxEntries : Nat) :
    entriesInvariant
      (createJournalEntries o companies periods users accounts minEntries
        maxEntries) := by
  simp only [createJournalEntries]
  have main : ∀ (l : List Period) (st : EntriesState), entriesInvariant st →
      entriesInvariant
        (l.foldl (entriesForPeriod o companies users accounts minEntries
          maxEntries) st) := by
    intro l
    induction l with
    | nil => intro st h; exact h
    | cons p t ih =>
      intro st h
      rw [List.foldl_cons]
      exact ih _ (entriesForPeriod_invariant o companies users accounts
        minEntries maxEntries st p h)
  exact main _ _ ⟨rfl, rfl⟩

/-- C2, amended: `createJournalEntries` assigns display ids from one counter
that is global across all companies: in creation order (periods sorted by
`startsOn`), the display ids of all entries are exactly `1, 2, 3, ...`; the
first entry of a particular company therefore gets display id 1 only when it
is the first entry created overall, not per company. -/
theorem displayId_global_sequence_C2 (o : EntriesOracle)
    (companies : List Company) (periods : List Period) (users : List User)
    (accounts : List Account) (minEntries maxEntries : Nat) :
    (createJournalEntries o companies periods users accounts minEntries
        maxEntries).journalEntries.map (fun e => e.displayId) =
      List.range' 1
        (createJournalEntries o companies periods users accounts minEntries
          maxEntries).journalEntries.length := by
  exact (createJournalEntries_invariant o companies periods users accounts
    minEntries maxEntries).1

/-- C2 counterexample: with two companies holding one period and one entry
each, the first entry of the second company receives display id 2, not
1 = 1 + (maximum display id of that company so far, none existing); the
per-company assignment stated by the claim therefore fails. -/
theorem displayId_per_company_counterexample_C2 :
    ((createJournalEntries entriesOracleFix [companyAFix, companyBFix]
        [periodAFix, periodBFix] [userAFix, userBFix] [] 1
        1).journalEntries.filter
      (fun e => decide (e.companyId = "companyB"))).map
        (fun e => e.displayId) = [2] ∧ (2 : Nat) ≠ 1 := by
  constructor
  · decide
  · decide

/-- C7: within any company, the display ids of the generated entries in
creation order form a strictly increasing sequence (hence contain no
duplicates). -/
theorem displayId_monotonic_C7 (o : EntriesOracle) (companies : List Company)
    (periods : List Period) (users : List User) (accounts : List Account)
    (minEntries maxEntries : Nat) (cid : String) :
    (((createJournalEntries o companies periods users accounts minEntries
          maxEntries).journalEntries.filter
        (fun e => decide (e.companyId = cid))).map
      (fun e => e.displayId)).Pairwise (fun a b => a < b) := by
  have hinv := (createJournalEntries_invariant o companies periods users
    accounts minEntries maxEntries).1
  have hall : (createJournalEntries o companies periods users accounts
      minEntries maxEntries).journalEntries.Pairwise
      (fun a b => a.displayId < b.displayId) := by
    have hrange := List.pairwise_lt_range' 1
      (createJournalEntries o companies periods users accounts minEntries
        maxEntries).journalEntries.length
    rw [← hinv] at hrange
    exact List.pairwise_map.mp hrange
  exact List.pairwise_map.mpr (hall.filter _)

end GenData
